import Mathlib

/-!
Verification of the Avro schema engine and binary codec of `lib/parse.js`.

The repository ships `lib/parse.js` (schema parsing, the type-node
hierarchy, validation, and the top-level `encode`/`decode`).  The byte
cursor (`lib/tap.js`) is required by `parse.js` but is not part of the
sources available here; its operations (zig-zag varints, length-prefixed
strings and bytes, block framing) are modelled from the specification and
are marked `Modelled from the spec:` below.

Conventions of the embedding:
* JavaScript values are the inductive `JsVal`; numbers are rationals
  (JavaScript numbers are IEEE doubles, every finite double is rational).
* A thrown JavaScript exception is `Option.none` / `Except.error`.
* The mutable `opts` object (registry + namespace) threaded by the source
  is explicit state, passed in and returned, mirroring the in-place
  mutation of the shared `opts` object (mutations persist to siblings).
* Buffers and wire bytes are `List Nat`.
-/

namespace Avsc

/-- JavaScript runtime values, as far as the codec observes them.
`vundef` is `undefined`; `vbuf` is a node `Buffer`; `vobj` is a plain
object as an ordered own-key list (JavaScript objects cannot hold a
duplicated key; lookups here take the first occurrence). -/
inductive JsVal where
  | vnull : JsVal
  | vundef : JsVal
  | vbool (b : Bool) : JsVal
  | vnum (q : ℚ) : JsVal
  | vstr (s : String) : JsVal
  | vbuf (bytes : List Nat) : JsVal
  | varr (elems : List JsVal) : JsVal
  | vobj (kvs : List (String × JsVal)) : JsVal

mutual

/-- A parsed schema document (the nested mapping/sequence/string structure
fed to `parse`).  The object form carries exactly the attributes
`parse.js` reads: `type`, `name`, `namespace`, `doc`, `symbols`, `size`,
`items`, `values`, `fields`. -/
inductive Schema where
  | sstr (s : String) : Schema
  | sunion (branches : List Schema) : Schema
  | sobj (type : Option String) (name : Option String)
      (ns : Option String) (doc : Option String)
      (symbols : Option (List String)) (size : Option Int)
      (items : Option Schema) (values : Option Schema)
      (fields : Option (List FieldSchema)) : Schema

/-- A record field entry of a schema: `{name, type, default, doc}`.
`dflt = none` means the `default` attribute is absent (`undefined`);
a JSON `null` default is `some JsVal.vnull`. -/
inductive FieldSchema where
  | mk (name : Option String) (type : Option Schema)
      (dflt : Option JsVal) (doc : Option String) : FieldSchema

end

mutual

/-- The type-node hierarchy built by `parse` (PrimitiveType, ArrayType,
MapType, EnumType, FixedType, RecordType, WrappedUnionType,
UnwrappedUnionType).  Named types store their fully qualified name. -/
inductive AvroType where
  | aprim (name : String) : AvroType
  | aarray (items : AvroType) : AvroType
  | amap (values : AvroType) : AvroType
  | aenum (name : String) (doc : Option String) (symbols : List String) : AvroType
  | afixed (name : String) (size : Nat) : AvroType
  | arecord (name : String) (doc : Option String) (fields : List FieldT) : AvroType
  | awrapped (types : List AvroType) : AvroType
  | aunwrapped (types : List AvroType) : AvroType

/-- A parsed record field: `{name, doc, type, default}` (the default is
stored after the `Buffer` conversion the source applies to bytes/fixed
defaults). -/
inductive FieldT where
  | mk (name : String) (doc : Option String) (type : AvroType)
      (dflt : Option JsVal) : FieldT

end

def FieldT.name : FieldT → String
  | .mk n _ _ _ => n

def FieldT.type : FieldT → AvroType
  | .mk _ _ t _ => t

def FieldT.dflt : FieldT → Option JsVal
  | .mk _ _ _ d => d

/-- Errors raised during parsing: `avsc` is the source's `AvscError`
(the schema-error class), `js` a plain `Error`/`TypeError`.  Message
formatting (`util.format` with `%j`) is not reproduced; messages keep
the fixed text of the corresponding `throw` site. -/
inductive PErr where
  | avsc (msg : String) : PErr
  | js (msg : String) : PErr
  deriving DecidableEq, Repr

/-- The mutable parsing options object: `registry` (name → type node,
a JavaScript object, so inserts overwrite), `namespace` (`ns` here, a
Lean keyword) and `unwrapUnions`. -/
structure Opts where
  registry : List (String × AvroType)
  ns : Option String
  unwrapUnions : Bool

/-- `PRIMITIVES` of parse.js. -/
def PRIMITIVES : List String :=
  ["null", "boolean", "int", "long", "float", "double", "bytes", "string"]

/-! ### JavaScript helpers -/

/-- `typeof v`. -/
def typeofStr : JsVal → String
  | .vnull => "object"
  | .vundef => "undefined"
  | .vbool _ => "boolean"
  | .vnum _ => "number"
  | .vstr _ => "string"
  | .vbuf _ => "object"
  | .varr _ => "object"
  | .vobj _ => "object"

/-- Insert into a JavaScript object used as a dictionary: a later insert
with the same key overwrites the earlier one in place. -/
def jsInsert (key : String) {α : Type} (val : α) :
    List (String × α) → List (String × α)
  | [] => [(key, val)]
  | (k, v) :: rest =>
      if k = key then (k, val) :: rest else (k, v) :: jsInsert key val rest

/-- `Object.keys v` for values of `typeof` "object" other than `null`
(array and Buffer own keys are their decimal indices).  On other values
the codec never calls `Object.keys`; those cases return `[]`. -/
def jsKeysSafe : JsVal → List String
  | .vobj kvs => kvs.map Prod.fst
  | .varr xs => (List.range xs.length).map (fun i => toString i)
  | .vbuf bs => (List.range bs.length).map (fun i => toString i)
  | _ => []

/-- Property access `v[key]`: `none` is the `TypeError` thrown when
reading a property of `null` or `undefined`; a missing property is
`undefined`. -/
def jsGet (v : JsVal) (key : String) : Option JsVal :=
  match v with
  | .vnull => none
  | .vundef => none
  | .vobj kvs =>
      match kvs.lookup key with
      | some x => some x
      | none => some .vundef
  | .varr xs =>
      match (List.range xs.length).findIdx? (fun i => toString i = key) with
      | some i => some (xs.getD i .vundef)
      | none => some .vundef
  | .vbuf bs =>
      match (List.range bs.length).findIdx? (fun i => toString i = key) with
      | some i => some (.vnum (bs.getD i 0))
      | none => some .vundef
  | _ => some (.vundef)

/-- `v[key]` where the receiver is known not to throw. -/
def jsGetD (v : JsVal) (key : String) : JsVal :=
  (jsGet v key).getD (.vundef)

/-- `Object.keys(obj)[0]` coerced to a property key: an empty key list
yields the value `undefined`, which subsequent bracket lookups coerce to
the string "undefined". -/
def jsFirstKey (v : JsVal) : String :=
  ((jsKeysSafe v).head?).getD "undefined"

/-- JavaScript `a || b` on an optional string: the only falsy string is
`""`. -/
def jsOrStr (a b : Option String) : Option String :=
  match a with
  | some s => if s = "" then b else some s
  | none => b

/-- Truthiness of an optional string. -/
def jsTruthyStr : Option String → Bool
  | some s => s ≠ ""
  | none => false

mutual

/-- Structural equality of JavaScript values. -/
def jsvalBeq : JsVal → JsVal → Bool
  | .vnull, .vnull => true
  | .vundef, .vundef => true
  | .vbool a, .vbool b => a = b
  | .vnum a, .vnum b => a = b
  | .vstr a, .vstr b => a = b
  | .vbuf a, .vbuf b => a = b
  | .varr a, .varr b => jsvalBeqList a b
  | .vobj a, .vobj b => jsvalBeqKVs a b
  | _, _ => false

def jsvalBeqList : List JsVal → List JsVal → Bool
  | [], [] => true
  | a :: as', b :: bs' => jsvalBeq a b && jsvalBeqList as' bs'
  | _, _ => false

def jsvalBeqKVs : List (String × JsVal) → List (String × JsVal) → Bool
  | [], [] => true
  | (k, a) :: as', (l, b) :: bs' =>
      decide (k = l) && jsvalBeq a b && jsvalBeqKVs as' bs'
  | _, _ => false

end

/-! ### Byte-level primitives.

Modelled from the spec: the byte cursor of `lib/tap.js` is absent from
the sources; reads and writes below follow §4.1 of the design (zig-zag
base-128 varints, long-length-prefixed UTF-8 strings and raw bytes,
raw fixed bytes, block-framed arrays and maps).  A writer produces the
byte list it appends (position advances are data-determined, so the
emitted stream does not depend on the buffer's capacity); a reader
consumes a prefix of a byte list and `none` reports truncation. -/

/-- Zig-zag encoding of a signed long. -/
def zigzag (n : Int) : Nat :=
  if 0 ≤ n then (2 * n).toNat else (-(2 * n) - 1).toNat

/-- Zig-zag decoding. -/
def unzigzag (u : Nat) : Int :=
  if u % 2 = 0 then (u / 2 : Nat) else -((u / 2 : Nat) : Int) - 1

/-- Base-128 varint bytes of an unsigned value, least significant group
first, MSB = continuation; fuelled so that the definition is structural
(the value at least halves each step, so fuel `u` never runs out). -/
def varintGo : Nat → Nat → List Nat
  | 0, u => [u]
  | fuel + 1, u =>
      if u < 128 then [u] else (u % 128 + 128) :: varintGo fuel (u / 128)

/-- Base-128 varint bytes of an unsigned value. -/
def varint (u : Nat) : List Nat :=
  varintGo u u

/-- Modelled from the spec: `Tap.prototype.writeLong`. -/
def writeLongB (n : Int) : List Nat :=
  varint (zigzag n)

/-- Read a base-128 varint; `none` on truncation. -/
def readVarint : List Nat → Option (Nat × List Nat)
  | [] => none
  | b :: rest =>
      if b < 128 then some (b, rest)
      else
        match readVarint rest with
        | some (u, rest') => some (b - 128 + 128 * u, rest')
        | none => none

/-- Modelled from the spec: `Tap.prototype.readLong`. -/
def readLongB (bs : List Nat) : Option (Int × List Nat) :=
  match readVarint bs with
  | some (u, rest) => some (unzigzag u, rest)
  | none => none

/-- UTF-8 bytes of one Unicode scalar value. -/
def utf8Char (n : Nat) : List Nat :=
  if n < 0x80 then [n]
  else if n < 0x800 then [0xC0 + n / 64, 0x80 + n % 64]
  else if n < 0x10000 then
    [0xE0 + n / 4096, 0x80 + n / 64 % 64, 0x80 + n % 64]
  else
    [0xF0 + n / 262144, 0x80 + n / 4096 % 64, 0x80 + n / 64 % 64,
      0x80 + n % 64]

/-- UTF-8 bytes of a string. -/
def utf8Str (s : String) : List Nat :=
  s.data.flatMap (fun c => utf8Char c.toNat)

/-- Decode one UTF-8 scalar from the front of a byte list. -/
def utf8DecChar : List Nat → Option (Nat × List Nat)
  | [] => none
  | b :: rest =>
      if b < 0x80 then some (b, rest)
      else if b < 0xC0 then none
      else if b < 0xE0 then
        match rest with
        | b1 :: r =>
            if 0x80 ≤ b1 ∧ b1 < 0xC0 then
              some ((b - 0xC0) * 64 + (b1 - 0x80), r)
            else none
        | [] => none
      else if b < 0xF0 then
        match rest with
        | b1 :: b2 :: r =>
            if (0x80 ≤ b1 ∧ b1 < 0xC0) ∧ (0x80 ≤ b2 ∧ b2 < 0xC0) then
              some ((b - 0xE0) * 4096 + (b1 - 0x80) * 64 + (b2 - 0x80), r)
            else none
        | _ => none
      else
        match rest with
        | b1 :: b2 :: b3 :: r =>
            if (0x80 ≤ b1 ∧ b1 < 0xC0) ∧ (0x80 ≤ b2 ∧ b2 < 0xC0) ∧
                (0x80 ≤ b3 ∧ b3 < 0xC0) then
              some ((b - 0xF0) * 262144 + (b1 - 0x80) * 4096 +
                (b2 - 0x80) * 64 + (b3 - 0x80), r)
            else none
        | _ => none

/-- Decode a byte list as UTF-8 scalars, fuelled (each scalar consumes
at least one byte, so fuel equal to the byte count never runs out). -/
def utf8DecAllF (fuel : Nat) (bs : List Nat) : Option (List Nat) :=
  if bs.isEmpty then some []
  else
    match fuel with
    | 0 => none
    | fuel' + 1 =>
        match utf8DecChar bs with
        | some (n, rest) => (utf8DecAllF fuel' rest).map (n :: ·)
        | none => none

/-- Decode a whole byte list as UTF-8 scalars. -/
def utf8DecAll (bs : List Nat) : Option (List Nat) :=
  utf8DecAllF bs.length bs

/-! ### Branch discriminators and index tables -/

/-- The union branch discriminator `type.name || type.getTypeName()`:
the qualified name for named types (their `name` is set and non-empty),
the kind name otherwise.  `Type.prototype.getTypeName` — reached for a
union nested inside a union, which has no `name` — RETURNS (does not
throw) an `Error('abstract')` object; used as a property key it is
coerced to the string "Error: abstract". -/
def discName : AvroType → String
  | .aprim n => n
  | .aarray _ => "array"
  | .amap _ => "map"
  | .aenum n _ _ => n
  | .afixed n _ => n
  | .arecord n _ _ => n
  | .awrapped _ => "Error: abstract"
  | .aunwrapped _ => "Error: abstract"

/-- Branch lookup in a union's `indices` table.  The construction loop
throws on a duplicated name, so the table maps each present name to its
unique branch index; the first match is that index. -/
def unionLookup (ts : List AvroType) (name : String) : Option Nat :=
  ts.findIdx? (fun t => discName t = name)

/-- The `indices` object of `EnumType`: `indices[symbols[i]] = i` in
schema order (property assignment overwrites, so a repeated symbol keeps
its last index). -/
def enumIndices (syms : List String) : List (String × Nat) :=
  syms.enum.foldl (fun m p => jsInsert p.2 p.1 m) []

/-- `indices[s]` of `EnumType`: the table's own properties.  The
source's `indices` is a plain object, so a lookup can also hit a key
inherited from `Object.prototype` (e.g. "toString"); inherited
properties are not modelled. -/
def enumLookup (syms : List String) (s : String) : Option Nat :=
  (enumIndices syms).lookup s

/-! ### Validation (`_check` of every type node).

`Option Bool`: `some b` is a returned boolean, `none` a thrown
JavaScript exception (property access on `null`, `Object.keys(null)`). -/

/-- `Number.MAX_SAFE_INTEGER`. -/
def MAX_SAFE_INTEGER : Int := 2 ^ 53 - 1

/-- The float magnitude bound `3.4028234e38` of the source, read as the
exact decimal rational. -/
def FLOAT_BOUND : ℚ := 34028234 * 10 ^ 31

/-- An `every`-style loop over values with a fallible boolean checker
(short-circuits on `false`; an exception propagates). -/
def optAll (chk : JsVal → Option Bool) : List JsVal → Option Bool
  | [] => some true
  | x :: rest =>
      match chk x with
      | some true => optAll chk rest
      | some false => some false
      | none => none

/-- The key loop of `MapType._check`: look each key up on the object
and check the value. -/
def optAllKeys (chk : JsVal → Option Bool) (v : JsVal) :
    List String → Option Bool
  | [] => some true
  | k :: rest =>
      match jsGet v k with
      | some x =>
          match chk x with
          | some true => optAllKeys chk v rest
          | some false => some false
          | none => none
      | none => none

mutual

/-- `_check` of a type node, from the corresponding constructor in
parse.js.  The boolean case is `o !== !o` (parse.js line 276): `!o` is
always a boolean and strict inequality against a value of another type
is always true, so the test is constantly true in JavaScript — every
value validates against "boolean". -/
def checkVal : AvroType → JsVal → Option Bool
  | .aprim n, v =>
      match n with
      | "null" => some (match v with | .vnull => true | _ => false)
      | "boolean" => some true
      | "int" =>
          some (match v with
            | .vnum q => q.den = 1 ∧ -(2 ^ 31) ≤ q.num ∧ q.num < 2 ^ 31
            | _ => false)
      | "long" =>
          some (match v with
            | .vnum q =>
                q.den = 1 ∧ q.num ≤ MAX_SAFE_INTEGER ∧
                  -MAX_SAFE_INTEGER ≤ q.num
            | _ => false)
      | "float" =>
          some (match v with
            | .vnum q => |q| < FLOAT_BOUND
            | _ => false)
      | "double" =>
          some (match v with | .vnum _ => true | _ => false)
      | "string" =>
          some (match v with | .vstr _ => true | _ => false)
      | "bytes" =>
          some (match v with | .vbuf _ => true | _ => false)
      | _ => some false
  | .aarray t, v =>
      match v with
      | .varr xs => optAll (fun x => checkVal t x) xs
      | _ => some false
  | .amap t, v =>
      if typeofStr v ≠ "object" then some false
      else match v with
        | .varr _ => some false
        | .vnull => none
        | _ => optAllKeys (fun x => checkVal t x) v (jsKeysSafe v)
  | .aenum _ _ syms, v =>
      some (match v with
        | .vstr s => (enumLookup syms s).isSome
        | _ => false)
  | .afixed _ size, v =>
      some (match v with
        | .vbuf b => b.length = size
        | _ => false)
  | .arecord _ _ fs, v =>
      if typeofStr v ≠ "object" then some false
      else checkFields fs v
  | .awrapped ts, v =>
      if typeofStr v ≠ "object" then some false
      else match v with
        | .vnull => some (unionLookup ts "null").isSome
        | _ =>
            let name := jsFirstKey v
            match unionLookup ts name with
            | some i => checkBranch ts i (jsGetD v name)
            | none => some false
  | .aunwrapped ts, v => checkSome ts v

/-- The generated per-field checker of `RecordType` (`generateChecker`):
a field with a default passes when absent (`undefined`), every other
field must validate. -/
def checkFields : List FieldT → JsVal → Option Bool
  | [], _ => some true
  | .mk fname _ ftype fdflt :: rest, v =>
      match jsGet v fname with
      | some val =>
          match fdflt with
          | none =>
              match checkVal ftype val with
              | some true => checkFields rest v
              | some false => some false
              | none => none
          | some _ =>
              if jsvalBeq val .vundef then checkFields rest v
              else
                match checkVal ftype val with
                | some true => checkFields rest v
                | some false => some false
                | none => none
      | none => none

/-- `self.types[index]._check.call(this, obj[name])` of the wrapped
union: walk to the branch at the given index and check the inner value
(the index always comes from the `indices` table, so the walk cannot
fall off the end). -/
def checkBranch : List AvroType → Nat → JsVal → Option Bool
  | [], _, _ => some false
  | t :: _, 0, x => checkVal t x
  | _ :: rest, i + 1, x => checkBranch rest i x

/-- `UnwrappedUnionType._check`: `types.some(...)` (short-circuits on
the first accepting branch; an exception before that propagates). -/
def checkSome : List AvroType → JsVal → Option Bool
  | [], _ => some false
  | t :: rest, v =>
      match checkVal t v with
      | some true => some true
      | some false => checkSome rest v
      | none => none

end

/-! ### IEEE-754 bit conversion.

Modelled from the spec: floats and doubles travel as little-endian
IEEE 754 binary32/binary64 (§4.1); the bit-level conversion lives in the
absent `lib/tap.js`.  JavaScript numbers are embedded as rationals, so
the conversion is expressed on rationals.  No claim settled in this file
depends on these two conversions (the round-trip theorem excludes
float/double-typed positions, floating-point behaviour being outside the
rational embedding). -/

/-- Round a rational to the nearest integer, ties to even. -/
def roundNE (q : ℚ) : Int :=
  let f := ⌊q⌋
  let r := q - f
  if r < 1 / 2 then f
  else if 1 / 2 < r then f + 1
  else if f % 2 = 0 then f else f + 1

/-- IEEE-754 bit pattern of a rational with `eb` exponent bits and `mb`
mantissa bits (binary32: 8/23, binary64: 11/52); round to nearest even,
subnormals flush toward zero, overflow clamps to infinity. -/
def ratToBits (eb mb : Nat) (q : ℚ) : Nat :=
  if q = 0 then 0
  else
    let sign : Nat := if q < 0 then 2 ^ (eb + mb) else 0
    let a : ℚ := |q|
    let bias : Int := 2 ^ (eb - 1) - 1
    let emin : Int := 1 - bias
    let e : Int := max (Int.log 2 a) emin
    let m : Int := roundNE (a * (2 : ℚ) ^ ((mb : Int) - e))
    if m < 2 ^ mb then sign + m.toNat
    else
      let e' : Int := if m = 2 ^ (mb + 1) then e + 1 else e
      let m' : Int := if m = 2 ^ (mb + 1) then (2 ^ mb : Int) else m
      if bias < e' then sign + (2 ^ eb - 1) * 2 ^ mb
      else sign + (e' + bias).toNat * 2 ^ mb + (m' - 2 ^ mb).toNat

/-- Rational value of an IEEE-754 bit pattern (infinities and NaNs are
outside the rational embedding and map to 0). -/
def bitsToRat (eb mb : Nat) (bits : Nat) : ℚ :=
  let sign : ℚ := if bits / 2 ^ (eb + mb) % 2 = 1 then -1 else 1
  let ef := bits / 2 ^ mb % 2 ^ eb
  let mf := bits % 2 ^ mb
  let bias : Int := 2 ^ (eb - 1) - 1
  if ef = 0 then sign * mf * (2 : ℚ) ^ (1 - bias - mb)
  else if ef = 2 ^ eb - 1 then 0
  else sign * (2 ^ mb + mf) * (2 : ℚ) ^ ((ef : Int) - bias - mb)

/-- `k` little-endian bytes of a bit pattern. -/
def bytesLE (k : Nat) (bits : Nat) : List Nat :=
  (List.range k).map (fun i => bits / 256 ^ i % 256)

/-- Recombine little-endian bytes. -/
def fromLE (bs : List Nat) : Nat :=
  bs.foldr (fun b acc => acc * 256 + b) 0

/-! ### Writers (`_write` of every type node).

The writers of parse.js drive the cursor of the absent `lib/tap.js`;
modelled from the spec, a write appends a byte stream whose content and
length are data-determined (position advances by the full length even
when the buffer cannot hold the bytes), so a writer is embedded as the
byte list it appends.  `none` is a thrown error. -/

/-- JavaScript truthiness. -/
def jsTruthy : JsVal → Bool
  | .vnull => false
  | .vundef => false
  | .vbool b => b
  | .vnum q => q ≠ 0
  | .vstr s => s ≠ ""
  | _ => true

/-- The number carried by a value; non-numbers are unreachable at the
numeric writers once the encoder's validity check has passed, and their
`ToNumber` coercion is not modelled. -/
def jsNum : JsVal → ℚ
  | .vnum q => q
  | _ => 0

/-- A value coerced to a property key, as the enum writer's
`indices[s]` does; coercions beyond null/undefined/booleans/strings are
not modelled (`none`). -/
def jsPropStr : JsVal → Option String
  | .vstr s => some s
  | .vnull => some "null"
  | .vundef => some "undefined"
  | .vbool b => some (if b then "true" else "false")
  | _ => none

/-- The record writer's default substitution: an `undefined` field value
is replaced by the field's (stored) default. -/
def substDefault (val : JsVal) (fdflt : Option JsVal) : JsVal :=
  match val, fdflt with
  | .vundef, some d => d
  | _, _ => val

/-- Item loop of the array writer, over a given element writer. -/
def listWrite (wr : JsVal → Option (List Nat)) : List JsVal → Option (List Nat)
  | [] => some []
  | x :: rest =>
      match wr x with
      | some bs =>
          match listWrite wr rest with
          | some tail => some (bs ++ tail)
          | none => none
      | none => none

/-- Key/value loop of the map writer (each entry is a written string key
followed by the written value), over a given value writer. -/
def pairsWrite (wr : JsVal → Option (List Nat)) (v : JsVal) :
    List String → Option (List Nat)
  | [] => some []
  | k :: rest =>
      match jsGet v k with
      | some x =>
          match wr x with
          | some bs =>
              match pairsWrite wr v rest with
              | some tail =>
                  some (writeLongB (utf8Str k).length ++ utf8Str k ++
                    bs ++ tail)
              | none => none
          | none => none
      | none => none

mutual

/-- `_write` of a type node: the byte stream the node appends for a
value, `none` when the source throws. -/
def writeVal : AvroType → JsVal → Option (List Nat)
  | .aprim n, v =>
      match n with
      | "null" => some []
      | "boolean" => some [if jsTruthy v then 1 else 0]
      | "int" => some (writeLongB (jsNum v).num)
      | "long" => some (writeLongB (jsNum v).num)
      | "float" => some (bytesLE 4 (ratToBits 8 23 (jsNum v)))
      | "double" => some (bytesLE 8 (ratToBits 11 52 (jsNum v)))
      | "string" =>
          match v with
          | .vstr s =>
              some (writeLongB (utf8Str s).length ++ utf8Str s)
          | _ => none
      | "bytes" =>
          match v with
          | .vbuf b => some (writeLongB b.length ++ b)
          | _ => none
      | _ => none
  | .aarray t, v =>
      match v with
      | .varr xs =>
          match listWrite (fun x => writeVal t x) xs with
          | some items =>
              some ((if xs.length = 0 then [] else
                writeLongB xs.length ++ items) ++ writeLongB 0)
          | none => none
      | _ => none
  | .amap t, v =>
      if typeofStr v ≠ "object" then none
      else match v with
        | .vnull => none
        | _ =>
            let keys := jsKeysSafe v
            match pairsWrite (fun x => writeVal t x) v keys with
            | some pairs =>
                some ((if keys.length = 0 then [] else
                  writeLongB keys.length ++ pairs) ++ writeLongB 0)
            | none => none
  | .aenum _ _ syms, v =>
      match jsPropStr v with
      | some s =>
          match enumLookup syms s with
          | some i => some (writeLongB i)
          | none => none
      | none => none
  | .afixed _ size, v =>
      match v with
      | .vbuf b => some ((b ++ List.replicate size 0).take size)
      | _ => none
  | .arecord _ _ fs, v => writeFields fs v
  | .awrapped ts, v =>
      if typeofStr v ≠ "object" then none
      else
        let name := match v with | .vnull => "null" | _ => jsFirstKey v
        match unionLookup ts name with
        | some i =>
            let inner :=
              match v with | .vnull => JsVal.vnull | _ => jsGetD v name
            match writeBranch ts i inner with
            | some bs => some (writeLongB i ++ bs)
            | none => none
        | none => none
  | .aunwrapped ts, v => writeScan ts v 0

/-- The generated record writer (`generateWriter`): fields in
declaration order; a field with a default substitutes it when the value
is `undefined`. -/
def writeFields : List FieldT → JsVal → Option (List Nat)
  | [], _ => some []
  | .mk fname _ ftype fdflt :: rest, v =>
      match jsGet v fname with
      | some val =>
          match writeVal ftype (substDefault val fdflt) with
          | some bs =>
              match writeFields rest v with
              | some tail => some (bs ++ tail)
              | none => none
          | none => none
      | none => none

/-- `self.types[index]._write.call(this, ...)` of the wrapped union:
walk to the branch at the given index and write the inner value. -/
def writeBranch : List AvroType → Nat → JsVal → Option (List Nat)
  | [], _, _ => none
  | t :: _, 0, x => writeVal t x
  | _ :: rest, i + 1, x => writeBranch rest i x

/-- `UnwrappedUnionType._write`: linear scan, emit the index of the
first branch whose `_check` accepts the value, then that branch's bytes;
throw when no branch matches. -/
def writeScan : List AvroType → JsVal → Nat → Option (List Nat)
  | [], _, _ => none
  | t :: rest, v, i =>
      match checkVal t v with
      | some true =>
          match writeVal t v with
          | some bs => some (writeLongB i ++ bs)
          | none => none
      | some false => writeScan rest v (i + 1)
      | none => none

end

/-! ### Readers (`_read` of every type node).

A reader consumes a prefix of a byte list and returns the value plus
the remaining bytes; `none` is a decode failure: truncation (a read past
the end leaves the cursor invalid, reported by `decode`) or a thrown
JavaScript error (`undefined._read` on a bad unwrapped-union index).
Array and map block loops carry fuel; every loop iteration consumes at
least the one byte of its count varint, so fuel equal to the remaining
byte count never runs out. -/

/-- Take exactly `n` bytes. -/
def readBytesN (n : Nat) (bs : List Nat) : Option (List Nat × List Nat) :=
  if n ≤ bs.length then some (bs.take n, bs.drop n) else none

/-- Modelled from the spec: `Tap.prototype.readString` (long length
prefix, then UTF-8 bytes). -/
def readStringB (bs : List Nat) : Option (String × List Nat) :=
  match readLongB bs with
  | some (len, r) =>
      if len < 0 then none
      else
        match readBytesN len.toNat r with
        | some (raw, r2) =>
            match utf8DecAll raw with
            | some scalars =>
                some (String.mk (scalars.map Char.ofNat), r2)
            | none => none
        | none => none
  | none => none

/-- Read exactly `n` items with a given item reader. -/
def readNF (rd : List Nat → Option (JsVal × List Nat)) :
    Nat → List Nat → Option (List JsVal × List Nat)
  | 0, bs => some ([], bs)
  | n + 1, bs =>
      match rd bs with
      | some (v, r) =>
          match readNF rd n r with
          | some (vs, r2) => some (v :: vs, r2)
          | none => none
      | none => none

/-- Block loop of the array/map readers over a given per-block element
reader: a signed count; a negative count is negated and followed by a
byte-size long to ignore; zero terminates.  Fuelled: every iteration
consumes at least the one byte of its count varint, so fuel equal to
the remaining byte count never runs out. -/
def readBlocksF {β : Type}
    (rdN : Nat → List Nat → Option (List β × List Nat)) :
    Nat → List Nat → Option (List β × List Nat)
  | 0, _ => none
  | fuel + 1, bs =>
      match readLongB bs with
      | some (cnt, r) =>
          if cnt = 0 then some ([], r)
          else
            let step : Option (Nat × List Nat) :=
              if cnt < 0 then
                match readLongB r with
                | some (_, r2) => some ((-cnt).toNat, r2)
                | none => none
              else some (cnt.toNat, r)
            match step with
            | some (n, r2) =>
                match rdN n r2 with
                | some (vs, r3) =>
                    match readBlocksF rdN fuel r3 with
                    | some (more, r4) => some (vs ++ more, r4)
                    | none => none
                | none => none
            | none => none
      | none => none

/-- Read exactly `n` map entries (string key, then value) with a given
value reader. -/
def readPairsF (rd : List Nat → Option (JsVal × List Nat)) :
    Nat → List Nat → Option (List (String × JsVal) × List Nat)
  | 0, bs => some ([], bs)
  | n + 1, bs =>
      match readStringB bs with
      | some (k, r) =>
          match rd r with
          | some (v, r2) =>
              match readPairsF rd n r2 with
              | some (kvs, r3) => some ((k, v) :: kvs, r3)
              | none => none
          | none => none
      | none => none

mutual

/-- `_read` of a type node. -/
def readVal : AvroType → List Nat → Option (JsVal × List Nat)
  | .aprim n, bs =>
      match n with
      | "null" => some (.vnull, bs)
      | "boolean" =>
          match bs with
          | b :: r => some (.vbool (decide (b ≠ 0)), r)
          | [] => none
      | "int" =>
          match readLongB bs with
          | some (k, r) => some (.vnum k, r)
          | none => none
      | "long" =>
          match readLongB bs with
          | some (k, r) => some (.vnum k, r)
          | none => none
      | "float" =>
          match readBytesN 4 bs with
          | some (raw, r) => some (.vnum (bitsToRat 8 23 (fromLE raw)), r)
          | none => none
      | "double" =>
          match readBytesN 8 bs with
          | some (raw, r) => some (.vnum (bitsToRat 11 52 (fromLE raw)), r)
          | none => none
      | "string" =>
          match readStringB bs with
          | some (s, r) => some (.vstr s, r)
          | none => none
      | "bytes" =>
          match readLongB bs with
          | some (len, r) =>
              if len < 0 then none
              else
                match readBytesN len.toNat r with
                | some (raw, r2) => some (.vbuf raw, r2)
                | none => none
          | none => none
      | _ => none
  | .aarray t, bs =>
      match readBlocksF (fun n b => readNF (fun b2 => readVal t b2) n b)
          bs.length bs with
      | some (vs, r) => some (.varr vs, r)
      | none => none
  | .amap t, bs =>
      match readBlocksF (fun n b => readPairsF (fun b2 => readVal t b2) n b)
          bs.length bs with
      | some (kvs, r) => some (.vobj kvs, r)
      | none => none
  | .aenum _ _ syms, bs =>
      match readLongB bs with
      | some (i, r) =>
          if h : 0 ≤ i ∧ i.toNat < syms.length then
            some (.vstr (syms.get ⟨i.toNat, h.2⟩), r)
          else some (.vundef, r)
      | none => none
  | .afixed _ size, bs =>
      match readBytesN size bs with
      | some (raw, r) => some (.vbuf raw, r)
      | none => none
  | .arecord _ _ fs, bs =>
      match readFieldsR fs bs with
      | some (kvs, r) => some (.vobj kvs, r)
      | none => none
  | .awrapped ts, bs =>
      match readLongB bs with
      | some (i, r) =>
          if i < 0 then some (.vnull, r)
          else readWrapB ts i.toNat r
      | none => none
  | .aunwrapped ts, bs =>
      match readLongB bs with
      | some (i, r) =>
          if i < 0 then none
          else readUnwrapB ts i.toNat r
      | none => none

/-- The generated record reader (`generateReader`): each field's reader
in declaration order, results bound to the field names on the record
instance. -/
def readFieldsR : List FieldT → List Nat →
    Option (List (String × JsVal) × List Nat)
  | [], bs => some ([], bs)
  | .mk fname _ ftype _ :: rest, bs =>
      match readVal ftype bs with
      | some (v, r) =>
          match readFieldsR rest r with
          | some (kvs, r2) => some ((fname, v) :: kvs, r2)
          | none => none
      | none => none

/-- `WrappedUnionType._read` after the index long: `constructors[i]`
is `null` both for the null branch (a branch whose discriminator is
"null") and for an out-of-range index, and then the branch value is NOT
read — the reader returns `null` directly; otherwise the branch value
is read and wrapped in `{branchName: value}`. -/
def readWrapB : List AvroType → Nat → List Nat →
    Option (JsVal × List Nat)
  | [], _, r => some (.vnull, r)
  | t :: _, 0, r =>
      if discName t = "null" then some (.vnull, r)
      else
        match readVal t r with
        | some (inner, r2) => some (.vobj [(discName t, inner)], r2)
        | none => none
  | _ :: rest, i + 1, r => readWrapB rest i r

/-- `UnwrappedUnionType._read`: delegate to the branch at the index;
an out-of-range index crashes (`undefined._read`). -/
def readUnwrapB : List AvroType → Nat → List Nat →
    Option (JsVal × List Nat)
  | [], _, _ => none
  | t :: _, 0, r => readVal t r
  | _ :: rest, i + 1, r => readUnwrapB rest i r

end

/-! ### Top-level codec (`Type.prototype.encode` / `decode`) -/

/-- The overflow test of `Type.prototype.encode` is `!tap.isValid`:
`isValid` is a method, so the operand is the function VALUE — a truthy
object — not the result of calling it.  The test is therefore constantly
false and the resize branch is dead code.  This constant records that
truthiness. -/
def tapIsValidMethodTruthy : Bool := true

/-- `Type.prototype.encode` as written (parse.js lines 214-232):
validity check (unless `opts.unsafe`), a buffer of `opts.size || 1024`
bytes, one write, the dead overflow test, and the slice `buf[0..pos]`
(clamped to the buffer's capacity, hence truncated on overflow). -/
def encodeCode (t : AvroType) (v : JsVal) (size : Nat)
    (skipCheck : Bool) : Option (List Nat) :=
  match (if skipCheck then some true else checkVal t v) with
  | some true =>
      match writeVal t v with
      | some bs =>
          let sz := if size = 0 then 1024 else size
          if !tapIsValidMethodTruthy then
            match writeVal t v with
            | some bs2 => some (bs2.take bs.length)
            | none => none
          else some (bs.take sz)
      | none => none
  | _ => none

/-- `Type.prototype.encode` with the overflow test performing its
documented intent (`!tap.isValid()`): on overflow, reallocate a buffer
of exactly `tap.pos` bytes, rewind and write once more. -/
def encodeIntended (t : AvroType) (v : JsVal) (size : Nat)
    (skipCheck : Bool) : Option (List Nat) :=
  match (if skipCheck then some true else checkVal t v) with
  | some true =>
      match writeVal t v with
      | some bs =>
          let sz := if size = 0 then 1024 else size
          if bs.length ≤ sz then some (bs.take sz)
          else
            match writeVal t v with
            | some bs2 => some (bs2.take bs.length)
            | none => none
      | none => none
  | _ => none

/-- `Type.prototype.decode`: read from a cursor at position 0 and fail
with "truncated buffer" when the cursor is left invalid; trailing bytes
are permitted. -/
def decodeCode (t : AvroType) (bs : List Nat) : Option JsVal :=
  match readVal t bs with
  | some (v, _) => some v
  | none => none

/-! ### The schema parser (`parse`, the type constructors, `getOpts`,
`getQualifiedName`, `Type.createRegistry`). -/

/-- `Type.createRegistry`: all primitive singletons. -/
def createRegistry : List (String × AvroType) :=
  PRIMITIVES.map (fun n => (n, AvroType.aprim n))

/-- A fresh options object for a top-level `parse(schema)` call. -/
def initOpts (unwrap : Bool) : Opts :=
  { registry := createRegistry, ns := none, unwrapUnions := unwrap }

/-- `schema.namespace` (strings and sequences have no such property). -/
def Schema.nsAttr : Schema → Option String
  | .sobj _ _ ns _ _ _ _ _ _ => ns
  | _ => none

/-- `getOpts`: mutate the shared options object,
`opts.namespace = schema.namespace || opts.namespace`.  The registry
seeding (`opts.registry || Type.createRegistry()`) happens once at the
top-level call and is modelled by starting from `initOpts`. -/
def getOptsM (s : Schema) (st : Opts) : Opts :=
  { st with ns := jsOrStr s.nsAttr st.ns }

/-- `getQualifiedName(schema, namespace)`: qualify a non-empty,
dot-free name with `schema.namespace || namespace` when that namespace
is truthy; a name already containing a dot is returned verbatim. -/
def getQualifiedNameM (name : Option String) (sns : Option String)
    (ns : Option String) : Option String :=
  let nsEff := jsOrStr sns ns
  match name with
  | some n =>
      if n ≠ "" ∧ ¬ n.data.contains '.' ∧ jsTruthyStr nsEff then
        some (nsEff.getD "" ++ "." ++ n)
      else some n
  | none => none

/-- A schema value that is falsy in JavaScript (`""`); `!schema.items`
and `!schema.values` reject it. -/
def falsySchema : Schema → Bool
  | .sstr s => s = ""
  | _ => false

/-- `new Buffer(value, 'binary')` applied to bytes/fixed defaults: a
string becomes its Latin-1 bytes (each code unit masked to one byte).
Other `Buffer` constructor overloads are not modelled and leave the
value unchanged. -/
def bufferize : JsVal → JsVal
  | .vstr s => .vbuf (s.data.map (fun c => c.toNat % 256))
  | v => v

/-- `field.type.getTypeName()` is "bytes" or "fixed": such a field with
a default makes `generateWriter` throw at construction time. -/
def defaultWriterUnsupported : AvroType → Bool
  | .aprim "bytes" => true
  | .afixed _ _ => true
  | _ => false

/-- The default conversion of `RecordType`'s field loop:
`new Buffer(field['default'], 'binary')` for fixed- and bytes-typed
fields, the default unchanged otherwise. -/
def coerceDefault (t : AvroType) (d : JsVal) : JsVal :=
  match t with
  | .afixed _ _ => bufferize d
  | .aprim "bytes" => bufferize d
  | _ => d

/-- A union node among a wrapped union's branches: the constructors
map of `WrappedUnionType` computes `name.indexOf('.')` where `name` is
`type.name || type.getTypeName()`, and for a nested union branch
`getTypeName` returns an `Error('abstract')` object with no `indexOf`
method — a TypeError, thrown after the duplicate-name loop.  The
unwrapped constructor builds no such map and accepts nested unions. -/
def isUnionNode : AvroType → Bool
  | .awrapped _ => true
  | .aunwrapped _ => true
  | _ => false

/-- The default-validation target: for a union field the FIRST branch,
otherwise the field type itself (parsed unions are non-empty, so the
fallback branch of `headD` is unreachable). -/
def defaultCheckType : AvroType → AvroType
  | .awrapped ts => ts.headD (.aprim "null")
  | .aunwrapped ts => ts.headD (.aprim "null")
  | t => t

mutual

/-- `parse(schema, opts)` (parse.js lines 70-121) together with the
type constructors it dispatches to.  The returned `Opts` is the shared
options object after its in-place mutations (registry inserts, namespace
propagation — including the source's leak of a nested `namespace`
attribute to later siblings). -/
def parse (s : Schema) (st0 : Opts) : Except PErr (AvroType × Opts) :=
  let st := getOptsM s st0
  match s with
  | .sstr name =>
      let name' :=
        if jsTruthyStr st.ns ∧ ¬ name.data.contains '.' ∧ name ∉ PRIMITIVES then
          st.ns.getD "" ++ "." ++ name
        else name
      match st.registry.lookup name' with
      | some t => .ok (t, st)
      | none => .error (.js "missing name")
  | .sunion branches =>
      if branches.isEmpty then .error (.avsc "empty union")
      else
        match parseBranches branches st with
        | .ok (ts, st') =>
            if (ts.map discName).Nodup then
              if st.unwrapUnions then .ok (.aunwrapped ts, st')
              else if ts.any isUnionNode then
                .error (.js "name.indexOf is not a function")
              else .ok (.awrapped ts, st')
            else .error (.avsc "duplicate union name")
        | .error e => .error e
  | .sobj type name ns doc symbols size items values fields =>
      match type with
      | none => .error (.avsc "unknown type")
      | some tn =>
          if tn ∈ PRIMITIVES then
            match st.registry.lookup tn with
            | some t => .ok (t, st)
            | none => .error (.js "primitive missing from registry")
          else if tn = "array" then
            match items with
            | some itemsS =>
                if falsySchema itemsS then .error (.avsc "missing array items")
                else
                  match parse itemsS st with
                  | .ok (it, st') => .ok (.aarray it, st')
                  | .error e => .error e
            | none => .error (.avsc "missing array items")
          else if tn = "map" then
            match values with
            | some valuesS =>
                if falsySchema valuesS then .error (.avsc "missing map values")
                else
                  match parse valuesS st with
                  | .ok (vt, st') => .ok (.amap vt, st')
                  | .error e => .error e
            | none => .error (.avsc "missing map values")
          else if tn = "enum" then
            if ¬ jsTruthyStr name then .error (.avsc "missing enum name")
            else
              match symbols with
              | some syms =>
                  if syms.isEmpty then .error (.avsc "invalid enum symbols")
                  else
                    match getQualifiedNameM name ns st.ns with
                    | some q =>
                        let node := AvroType.aenum q doc syms
                        .ok (node,
                          { st with registry := jsInsert q node st.registry })
                    | none => .error (.avsc "missing enum name")
              | none => .error (.avsc "invalid enum symbols")
          else if tn = "fixed" then
            if ¬ jsTruthyStr name then .error (.avsc "missing fixed name")
            else
              match size with
              | some z =>
                  if 1 ≤ z ∧ z < 2 ^ 31 then
                    match getQualifiedNameM name ns st.ns with
                    | some q =>
                        let node := AvroType.afixed q z.toNat
                        .ok (node,
                          { st with registry := jsInsert q node st.registry })
                    | none => .error (.avsc "missing fixed name")
                  else .error (.avsc "invalid fixed size")
              | none => .error (.avsc "invalid fixed size")
          else if tn = "record" then
            if ¬ jsTruthyStr name then .error (.avsc "missing record name")
            else
              match getQualifiedNameM name ns st.ns with
              | some q =>
                  match fields with
                  | some fsS =>
                      -- The source registers the record object itself
                      -- BEFORE parsing its fields (self-references find
                      -- it); an immutable embedding registers a
                      -- placeholder first, then puts the finished node
                      -- into the still-placeholder slot.  A nested
                      -- redefinition of the same name keeps its own
                      -- node, as in the source.
                      let placeholder := AvroType.arecord q doc []
                      let st1 :=
                        { st with registry :=
                            jsInsert q placeholder st.registry }
                      match parseFields fsS st1 with
                      | .ok (fts, st2) =>
                          if fts.any (fun f =>
                              f.dflt.isSome ∧ defaultWriterUnsupported f.type)
                          then
                            .error (.js
                              "bytes and fixed defaults are not supported yet")
                          else
                            let node := AvroType.arecord q doc fts
                            let reg' :=
                              match st2.registry.lookup q with
                              | some (.arecord _ _ []) =>
                                  jsInsert q node st2.registry
                              | _ => st2.registry
                            .ok (node, { st2 with registry := reg' })
                      | .error e => .error e
                  | none => .error (.avsc "invalid record fields")
              | none => .error (.avsc "missing record name")
          else .error (.avsc "unknown type")

/-- `schema.map(function (o) { return parse(o, opts); })` of
`UnionType`. -/
def parseBranches (ss : List Schema) (st : Opts) :
    Except PErr (List AvroType × Opts) :=
  match ss with
  | [] => .ok ([], st)
  | s :: rest =>
      match parse s st with
      | .ok (t, st1) =>
          match parseBranches rest st1 with
          | .ok (ts, st2) => .ok (t :: ts, st2)
          | .error e => .error e
      | .error e => .error e

/-- The `schema.fields.map(...)` body of `RecordType`: field shape
check, field type parse, default `Buffer` conversion and validation
(first union branch only), then the assembled field list. -/
def parseFields (fs : List FieldSchema) (st : Opts) :
    Except PErr (List FieldT × Opts) :=
  match fs with
  | [] => .ok ([], st)
  | .mk fname ftypeS fdflt fdoc :: rest =>
      match fname with
      | none => .error (.avsc "invalid field")
      | some fn =>
          match ftypeS with
          | none => .error (.js "cannot read namespace of undefined")
          | some tS =>
              match parse tS st with
              | .ok (t, st1) =>
                  match fdflt with
                  | none =>
                      match parseFields rest st1 with
                      | .ok (fts, st2) =>
                          .ok (.mk fn fdoc t none :: fts, st2)
                      | .error e => .error e
                  | some d =>
                      let d' := coerceDefault t d
                      match checkVal (defaultCheckType t) d' with
                      | some true =>
                          match parseFields rest st1 with
                          | .ok (fts, st2) =>
                              .ok (.mk fn fdoc t (some d') :: fts, st2)
                          | .error e => .error e
                      | some false => .error (.avsc "invalid default")
                      | none => .error (.js "exception validating default")
              | .error e => .error e

end

/-! ### Value equality and the predicates of the round-trip theorem -/


/-- Is a type node the null primitive? -/
def isNullPrim : AvroType → Bool
  | .aprim "null" => true
  | _ => false

mutual

/-- The type contains no float or double position (the IEEE bit-level
conversion is outside the rational embedding). -/
def fpFree : AvroType → Bool
  | .aprim n => decide (n ≠ "float") && decide (n ≠ "double")
  | .aarray t => fpFree t
  | .amap t => fpFree t
  | .aenum _ _ _ => true
  | .afixed _ _ => true
  | .arecord _ _ fs => fpFreeFields fs
  | .awrapped ts => fpFreeList ts
  | .aunwrapped ts => fpFreeList ts

def fpFreeList : List AvroType → Bool
  | [] => true
  | t :: rest => fpFree t && fpFreeList rest

def fpFreeFields : List FieldT → Bool
  | [] => true
  | .mk _ _ t _ :: rest => fpFree t && fpFreeFields rest

end

mutual

/-- Exclusion of two degenerate schema shapes the source accepts but
mangles: a wrapped-union branch whose discriminator is "null" must be
the null primitive (a named type legally called "null" makes the
wrapped writer pair the null value with that branch, whose writer then
throws), and record field names must be distinct within a record (with
a duplicated name the generated constructor keeps only the last
assignment). -/
def tame : AvroType → Bool
  | .aprim _ => true
  | .aenum _ _ _ => true
  | .afixed _ _ => true
  | .aarray t => tame t
  | .amap t => tame t
  | .arecord _ _ fs => decide (fs.map FieldT.name).Nodup && tameFields fs
  | .awrapped ts => tameList ts && tameBranches ts
  | .aunwrapped ts => tameList ts

def tameBranches : List AvroType → Bool
  | [] => true
  | t :: rest =>
      (decide (discName t ≠ "null") || isNullPrim t) && tameBranches rest

def tameList : List AvroType → Bool
  | [] => true
  | t :: rest => tame t && tameList rest

def tameFields : List FieldT → Bool
  | [] => true
  | .mk _ _ t _ :: rest => tame t && tameFields rest

end

/-- First branch of an unwrapped union whose `_check` accepts the
value. -/
def firstMatch (ts : List AvroType) (v : JsVal) : Option Nat :=
  ts.findIdx? (fun t => checkVal t v = some true)

/-- A fallible `all` over a list of values. -/
def boolAll (p : JsVal → Bool) : List JsVal → Bool
  | [] => true
  | x :: rest => p x && boolAll p rest

/-- `all` over the values at the given keys of an object. -/
def boolAllKeys (p : JsVal → Bool) (v : JsVal) : List String → Bool
  | [] => true
  | k :: rest => p (jsGetD v k) && boolAllKeys p v rest

mutual

/-- Every record field carrying a default is present (not `undefined`)
in the value, along every position the writer visits.  An absent
defaulted field is substituted by the writer and decodes to the default,
not to the absent field. -/
def nmdVal : AvroType → JsVal → Bool
  | .aprim _, _ => true
  | .aenum _ _ _, _ => true
  | .afixed _ _, _ => true
  | .aarray t, v =>
      match v with
      | .varr xs => boolAll (fun x => nmdVal t x) xs
      | _ => true
  | .amap t, v => boolAllKeys (fun x => nmdVal t x) v (jsKeysSafe v)
  | .arecord _ _ fs, v => nmdFields fs v
  | .awrapped ts, v =>
      match v with
      | .vnull => true
      | _ =>
          let name := jsFirstKey v
          match unionLookup ts name with
          | some i => nmdBranch ts i (jsGetD v name)
          | none => true
  | .aunwrapped ts, v => nmdScan ts v

def nmdFields : List FieldT → JsVal → Bool
  | [], _ => true
  | .mk fname _ ftype fdflt :: rest, v =>
      (fdflt.isNone || !jsvalBeq (jsGetD v fname) .vundef) &&
        nmdVal ftype (jsGetD v fname) && nmdFields rest v

def nmdBranch : List AvroType → Nat → JsVal → Bool
  | [], _, _ => true
  | t :: _, 0, x => nmdVal t x
  | _ :: rest, i + 1, x => nmdBranch rest i x

def nmdScan : List AvroType → JsVal → Bool
  | [], _ => true
  | t :: rest, v =>
      match checkVal t v with
      | some true => nmdVal t v
      | some false => nmdScan rest v
      | none => true

end

mutual

/-- Every value sitting at a boolean-typed position the writer visits
is an actual boolean.  The source's boolean `_check` (`o !== !o`,
parse.js line 276) is constantly true, so validation never enforces
this, while the boolean writer collapses any other value to its
truthiness — losing it in the round trip. -/
def strictBool : AvroType → JsVal → Bool
  | .aprim n, v =>
      if n = "boolean" then
        match v with | .vbool _ => true | _ => false
      else true
  | .aenum _ _ _, _ => true
  | .afixed _ _, _ => true
  | .aarray t, v =>
      match v with
      | .varr xs => boolAll (fun x => strictBool t x) xs
      | _ => true
  | .amap t, v => boolAllKeys (fun x => strictBool t x) v (jsKeysSafe v)
  | .arecord _ _ fs, v => strictBoolFields fs v
  | .awrapped ts, v =>
      match v with
      | .vnull => true
      | _ =>
          let name := jsFirstKey v
          match unionLookup ts name with
          | some i => strictBoolBranch ts i (jsGetD v name)
          | none => true
  | .aunwrapped ts, v => strictBoolScan ts v

def strictBoolFields : List FieldT → JsVal → Bool
  | [], _ => true
  | .mk fname _ ftype _ :: rest, v =>
      strictBool ftype (jsGetD v fname) && strictBoolFields rest v

def strictBoolBranch : List AvroType → Nat → JsVal → Bool
  | [], _, _ => true
  | t :: _, 0, x => strictBool t x
  | _ :: rest, i + 1, x => strictBoolBranch rest i x

def strictBoolScan : List AvroType → JsVal → Bool
  | [], _ => true
  | t :: rest, v =>
      match checkVal t v with
      | some true => strictBool t v
      | some false => strictBoolScan rest v
      | none => true

end

/-- The branch tag of a value at a wrapped union. -/
def wrapTag : JsVal → String
  | .vnull => "null"
  | v => jsFirstKey v

/-- The branch payload of a value at a wrapped union. -/
def wrapPayload : JsVal → JsVal
  | .vnull => .vnull
  | v => jsGetD v (wrapTag v)

/-- Pointwise equivalence of two lists, with a given element
comparison. -/
def listEquiv (eqv : JsVal → JsVal → Bool) : List JsVal → List JsVal → Bool
  | [], [] => true
  | x :: xs, y :: ys => eqv x y && listEquiv eqv xs ys
  | _, _ => false

/-- Pointwise equivalence at each key of two objects. -/
def keysEquiv (eqv : JsVal → JsVal → Bool) (v w : JsVal) :
    List String → Bool
  | [] => true
  | k :: rest => eqv (jsGetD v k) (jsGetD w k) && keysEquiv eqv v w rest

mutual

/-- Avro datum equality, directed by the type: two values are
equivalent when they denote the same Avro datum under the codec's
access pattern — records and maps compare pointwise at their keys
(insensitive to field order and to the JavaScript carrier), wrapped
unions compare branch tag and payload, unwrapped unions compare at the
first branch accepting the second (reference) value, and everything
else compares structurally. -/
def avroEquiv : AvroType → JsVal → JsVal → Bool
  | .aprim _, v, w => jsvalBeq v w
  | .aenum _ _ _, v, w => jsvalBeq v w
  | .afixed _ _, v, w => jsvalBeq v w
  | .aarray t, v, w =>
      match v, w with
      | .varr xs, .varr ys => listEquiv (fun a b => avroEquiv t a b) xs ys
      | _, _ => jsvalBeq v w
  | .amap t, v, w =>
      decide (jsKeysSafe v = jsKeysSafe w) &&
        keysEquiv (fun a b => avroEquiv t a b) v w (jsKeysSafe v)
  | .arecord _ _ fs, v, w => equivFields fs v w
  | .awrapped ts, v, w =>
      decide (wrapTag v = wrapTag w) &&
        match unionLookup ts (wrapTag v) with
        | some i => equivBranch ts i (wrapPayload v) (wrapPayload w)
        | none => jsvalBeq v w
  | .aunwrapped ts, v, w =>
      match firstMatch ts w with
      | some i => equivBranch ts i v w
      | none => jsvalBeq v w

def equivFields : List FieldT → JsVal → JsVal → Bool
  | [], _, _ => true
  | .mk fname _ ftype _ :: rest, v, w =>
      avroEquiv ftype (jsGetD v fname) (jsGetD w fname) &&
        equivFields rest v w

def equivBranch : List AvroType → Nat → JsVal → JsVal → Bool
  | [], _, v, w => jsvalBeq v w
  | t :: _, 0, v, w => avroEquiv t v w
  | _ :: rest, i + 1, v, w => equivBranch rest i v w

end

/-! ### Byte-level round-trip lemmas -/

theorem jsInsert_lookup {α : Type} (k : String) (v : α)
    (m : List (String × α)) (k' : String) :
    (jsInsert k v m).lookup k' =
      if k' = k then some v else m.lookup k' := by
  induction m with
  | nil =>
    simp only [jsInsert, List.lookup]
    by_cases h : k' = k
    · simp [h]
    · simp [beq_eq_false_iff_ne.mpr h, h]
  | cons p rest ih =>
    obtain ⟨pk, pv⟩ := p
    simp only [jsInsert]
    by_cases hpk : pk = k
    · rw [if_pos hpk]
      subst hpk
      simp only [List.lookup]
      by_cases hk' : k' = pk
      · simp [hk']
      · simp [beq_eq_false_iff_ne.mpr hk', hk']
    · rw [if_neg hpk]
      simp only [List.lookup]
      by_cases hk' : k' = pk
      · subst hk'
        simp only [beq_self_eq_true]
        rw [if_neg (fun h => hpk h)]
      · simp only [beq_eq_false_iff_ne.mpr hk']
        exact ih

theorem jsvalBeqList_refl (xs : List JsVal)
    (h : ∀ x ∈ xs, jsvalBeq x x = true) : jsvalBeqList xs xs = true := by
  induction xs with
  | nil => rfl
  | cons x rest ih =>
    simp only [jsvalBeqList, Bool.and_eq_true]
    exact ⟨h x (List.mem_cons_self x rest),
      ih (fun y hy => h y (List.mem_cons_of_mem x hy))⟩

theorem jsvalBeqKVs_refl (kvs : List (String × JsVal))
    (h : ∀ p ∈ kvs, jsvalBeq p.2 p.2 = true) :
    jsvalBeqKVs kvs kvs = true := by
  induction kvs with
  | nil => rfl
  | cons p rest ih =>
    obtain ⟨k, x⟩ := p
    simp only [jsvalBeqKVs, Bool.and_eq_true]
    exact ⟨⟨by simp, h (k, x) (List.mem_cons_self _ rest)⟩,
      ih (fun q hq => h q (List.mem_cons_of_mem _ hq))⟩

theorem jsvalBeq_refl (v : JsVal) : jsvalBeq v v = true := by
  have key : ∀ n v, sizeOf v ≤ n → jsvalBeq v v = true := by
    intro n
    induction n using Nat.strong_induction_on with
    | _ n ih =>
      intro v hv
      match v with
      | .vnull => rfl
      | .vundef => rfl
      | .vbool b => simp [jsvalBeq]
      | .vnum q => simp [jsvalBeq]
      | .vstr s => simp [jsvalBeq]
      | .vbuf b => simp [jsvalBeq]
      | .varr xs =>
        simp only [jsvalBeq]
        refine jsvalBeqList_refl xs (fun x hx => ?_)
        refine ih (sizeOf x) ?_ x (Nat.le_refl _)
        have := List.sizeOf_lt_of_mem hx
        simp at hv ⊢
        omega
      | .vobj kvs =>
        simp only [jsvalBeq]
        refine jsvalBeqKVs_refl kvs (fun p hp => ?_)
        refine ih (sizeOf p.2) ?_ p.2 (Nat.le_refl _)
        have h1 := List.sizeOf_lt_of_mem hp
        have h2 : sizeOf p.2 ≤ sizeOf p := by
          obtain ⟨a, b⟩ := p
          simp only [Prod.mk.sizeOf_spec]
          omega
        simp at hv ⊢
        omega
  exact key (sizeOf v) v (Nat.le_refl _)

/-- A branch walk agrees with positional lookup. -/
theorem checkBranch_eq (ts : List AvroType) (i : Nat) (x : JsVal)
    (t : AvroType) (h : ts.get? i = some t) :
    checkBranch ts i x = checkVal t x := by
  induction ts generalizing i with
  | nil => simp at h
  | cons u rest ih =>
    cases i with
    | zero => simp at h; subst h; rfl
    | succ j => exact ih j (by simpa using h)

/-- `unionLookup` finds the first branch with the given discriminator:
it lands on a branch carrying that name. -/
theorem unionLookup_get (ts : List AvroType) (name : String) (i : Nat)
    (h : unionLookup ts name = some i) :
    ∃ t, ts.get? i = some t ∧ discName t = name := by
  obtain ⟨hlt, hp, -⟩ := List.findIdx?_eq_some_iff_getElem.mp h
  refine ⟨ts[i], ?_, by simpa using hp⟩
  simp [List.get?_eq_getElem?, hlt]

/-! ### The round-trip property and its list-level steps -/

theorem fpFreeFields_mem {fs : List FieldT} (h : fpFreeFields fs = true)
    {f : FieldT} (hf : f ∈ fs) : fpFree f.type = true := by
  induction fs with
  | nil => simp at hf
  | cons g rest ih =>
    obtain ⟨gn, gd, gt, gdf⟩ := g
    simp only [fpFreeFields, Bool.and_eq_true] at h
    rcases List.mem_cons.mp hf with rfl | hmem
    · exact h.1
    · exact ih h.2 hmem

theorem tameFields_mem {fs : List FieldT} (h : tameFields fs = true)
    {f : FieldT} (hf : f ∈ fs) : tame f.type = true := by
  induction fs with
  | nil => simp at hf
  | cons g rest ih =>
    obtain ⟨gn, gd, gt, gdf⟩ := g
    simp only [tameFields, Bool.and_eq_true] at h
    rcases List.mem_cons.mp hf with rfl | hmem
    · exact h.1
    · exact ih h.2 hmem

example (t : AvroType) : sizeOf t < sizeOf (AvroType.aarray t) := by
  simp

example (t : AvroType) (ts : List AvroType) (h : t ∈ ts) :
    sizeOf t < sizeOf (AvroType.aunwrapped ts) := by
  have := List.sizeOf_lt_of_mem h
  simp; omega

example (f : FieldT) (fs : List FieldT) (h : f ∈ fs) (a b : String) :
    sizeOf (FieldT.type f) < sizeOf (AvroType.arecord a b fs) := by
  have h1 := List.sizeOf_lt_of_mem h
  have h2 : sizeOf (FieldT.type f) < sizeOf f := by
    obtain ⟨n, d, t, df⟩ := f
    simp [FieldT.type]
    omega
  simp
  omega

/-- C1: `Type.prototype.encode` never resizes on overflow.  The source's
overflow test `!tap.isValid` negates the truthiness of the method value
itself (the call is missing), so the resize branch is dead: for the
valid value "hello" and a 4-byte initial buffer the code returns the
truncated 4-byte slice — which no longer decodes — while the documented
intent (`encodeIntended`) reallocates and returns the complete 6-byte
encoding. -/
theorem C1_encode_overflow_truncates :
    checkVal (.aprim "string") (.vstr "hello") = some true ∧
    encodeCode (.aprim "string") (.vstr "hello") 4 false =
      some [10, 104, 101, 108] ∧
    encodeIntended (.aprim "string") (.vstr "hello") 4 false =
      some [10, 104, 101, 108, 108, 111] ∧
    decodeCode (.aprim "string") [10, 104, 101, 108] = none :=
  ⟨rfl, rfl, rfl, rfl⟩

/-- The enum schema `{"type": "enum", "name": "E", "symbols": ["A","B"]}`. -/
def C4enumS : Schema :=
  .sobj (some "enum") (some "E") none none (some ["A", "B"]) none none
    none none

/-- C4: an out-of-range enum index is NOT a decode failure: the reader
indexes past the symbol array and returns `undefined`, which `decode`
surfaces as a successful result.  Index 3 (bytes [0x06]) and index -1
(bytes [0x01]) are outside `[0, 2)` for the two-symbol enum `E`, yet
decoding yields `undefined` instead of an error; the in-range index 1
decodes to "B". -/
theorem C4_enum_unknown_index_not_error :
    ∃ st, parse C4enumS (initOpts false) =
        .ok (.aenum "E" none ["A", "B"], st) ∧
      decodeCode (.aenum "E" none ["A", "B"]) [6] = some .vundef ∧
      decodeCode (.aenum "E" none ["A", "B"]) [1] = some .vundef ∧
      decodeCode (.aenum "E" none ["A", "B"]) [2] = some (.vstr "B") :=
  ⟨{ registry := jsInsert "E" (.aenum "E" none ["A", "B"]) createRegistry,
     ns := none, unwrapUnions := false }, rfl, rfl, rfl, rfl⟩

/-- C9: the generated record checker's guard `typeof obj != 'object'`
lets `null` through (typeof null is "object"), so `validate(null)`
never returns false: it returns true when the record has no fields and
throws a TypeError (field access on null) otherwise. -/
theorem C9_record_validate_null (nm : String) (doc : Option String)
    (fs : List FieldT) :
    checkVal (.arecord nm doc fs) .vnull =
      (if fs.isEmpty then some true else none) ∧
    checkVal (.arecord nm doc fs) .vnull ≠ some false := by
  have h : checkVal (.arecord nm doc fs) .vnull =
      (if fs.isEmpty then some true else none) := by
    simp only [checkVal]
    rw [if_neg (by simp [typeofStr])]
    cases fs with
    | nil => rfl
    | cons f rest =>
      obtain ⟨a, b, c, d⟩ := f
      simp [checkFields, jsGet, List.isEmpty]
  refine ⟨h, ?_⟩
  rw [h]
  cases fs <;> simp

/-- The wrapped-union checker at a non-null object-shaped value, with
the constructor-specific match reduction supplied as a hypothesis: the
result depends only on the FIRST key of the value. -/
theorem wrapped_check_obj (ts : List AvroType) (v : JsVal)
    (hob : checkVal (.awrapped ts) v =
      (match unionLookup ts (jsFirstKey v) with
       | some i => checkBranch ts i (jsGetD v (jsFirstKey v))
       | none => some false)) :
    checkVal (.awrapped ts) v = some true ↔
      ∃ i t, unionLookup ts (jsFirstKey v) = some i ∧
        ts.get? i = some t ∧ discName t = jsFirstKey v ∧
        checkVal t (jsGetD v (jsFirstKey v)) = some true := by
  rw [hob]
  constructor
  · intro h
    rcases hl : unionLookup ts (jsFirstKey v) with _ | i
    · rw [hl] at h
      exact absurd h (by simp)
    · rw [hl] at h
      dsimp only at h
      obtain ⟨t', hget, hdisc⟩ := unionLookup_get ts _ i hl
      rw [checkBranch_eq ts i _ t' hget] at h
      exact ⟨i, t', rfl, hget, hdisc, h⟩
  · rintro ⟨i, t', hl, hget, hdisc, hv⟩
    rw [hl]
    dsimp only
    rw [checkBranch_eq ts i _ t' hget]
    exact hv

/-- C3 (amended): wrapped-union validation: null validates exactly when
a null branch exists; any other value validates exactly when it is
object-shaped and its FIRST key names a branch whose type accepts the
value at that key — how many other keys the object carries is never
examined (a multi-key object can validate). -/
theorem C3_wrapped_check_first_key (ts : List AvroType) (v : JsVal) :
    checkVal (.awrapped ts) v = some true ↔
      (v = .vnull ∧ (unionLookup ts "null").isSome = true) ∨
      (typeofStr v = "object" ∧ v ≠ .vnull ∧
        ∃ i t, unionLookup ts (jsFirstKey v) = some i ∧
          ts.get? i = some t ∧ discName t = jsFirstKey v ∧
          checkVal t (jsGetD v (jsFirstKey v)) = some true) := by
  cases v with
  | vnull =>
    have hred : checkVal (.awrapped ts) JsVal.vnull =
        some (unionLookup ts "null").isSome := rfl
    rw [hred]
    constructor
    · intro h
      exact Or.inl ⟨rfl, by simpa using h⟩
    · rintro (⟨-, h2⟩ | ⟨-, hne, -⟩)
      · rw [h2]
      · exact absurd rfl hne
  | vundef =>
    have hred : checkVal (.awrapped ts) (JsVal.vundef) = some false := rfl
    rw [hred]
    constructor
    · intro h
      exact absurd h (by simp)
    · rintro (⟨heq, -⟩ | ⟨h1, -⟩)
      · exact absurd heq (by simp)
      · exact absurd h1 (by simp [typeofStr])
  | vbool b =>
    have hred : checkVal (.awrapped ts) (JsVal.vbool b) = some false := rfl
    rw [hred]
    constructor
    · intro h
      exact absurd h (by simp)
    · rintro (⟨heq, -⟩ | ⟨h1, -⟩)
      · exact absurd heq (by simp)
      · exact absurd h1 (by simp [typeofStr])
  | vnum q =>
    have hred : checkVal (.awrapped ts) (JsVal.vnum q) = some false := rfl
    rw [hred]
    constructor
    · intro h
      exact absurd h (by simp)
    · rintro (⟨heq, -⟩ | ⟨h1, -⟩)
      · exact absurd heq (by simp)
      · exact absurd h1 (by simp [typeofStr])
  | vstr s =>
    have hred : checkVal (.awrapped ts) (JsVal.vstr s) = some false := rfl
    rw [hred]
    constructor
    · intro h
      exact absurd h (by simp)
    · rintro (⟨heq, -⟩ | ⟨h1, -⟩)
      · exact absurd heq (by simp)
      · exact absurd h1 (by simp [typeofStr])
  | vobj kvs =>
    rw [wrapped_check_obj ts (JsVal.vobj kvs) rfl]
    constructor
    · intro h
      exact Or.inr ⟨rfl, by simp, h⟩
    · rintro (⟨heq, -⟩ | ⟨-, -, h⟩)
      · exact absurd heq (by simp)
      · exact h
  | vbuf b =>
    rw [wrapped_check_obj ts (JsVal.vbuf b) rfl]
    constructor
    · intro h
      exact Or.inr ⟨rfl, by simp, h⟩
    · rintro (⟨heq, -⟩ | ⟨-, -, h⟩)
      · exact absurd heq (by simp)
      · exact h
  | varr xs =>
    rw [wrapped_check_obj ts (JsVal.varr xs) rfl]
    constructor
    · intro h
      exact Or.inr ⟨rfl, by simp, h⟩
    · rintro (⟨heq, -⟩ | ⟨-, -, h⟩)
      · exact absurd heq (by simp)
      · exact h

/-- C3's counterexample to the original claim: under the wrapped union
["null","string"] parsed from source, the TWO-key object
`{string: "a", int: 3}` validates (only the first key is examined),
contradicting "a mapping with more than one key never validates". -/
theorem C3_counterexample :
    ∃ t st,
      parse (.sunion [.sstr "null", .sstr "string"]) (initOpts false) =
        .ok (t, st) ∧
      checkVal t (.vobj [("string", .vstr "a"), ("int", .vnum 3)]) =
        some true :=
  ⟨.awrapped [.aprim "null", .aprim "string"], initOpts false, rfl, rfl⟩

/-- C5: a union schema two of whose parsed branches share a
discriminator name fails to parse with the duplicate-name SchemaError
(wrapped and unwrapped unions run the same check before the unwrap
choice). -/
theorem C5_union_duplicate_discriminator (ss : List Schema) (st0 : Opts)
    (ts : List AvroType) (st1 : Opts)
    (hb : parseBranches ss (getOptsM (.sunion ss) st0) = .ok (ts, st1))
    (hdup : ¬ (ts.map discName).Nodup) :
    parse (.sunion ss) st0 = .error (.avsc "duplicate union name") := by
  cases ss with
  | nil =>
    simp only [parseBranches, Except.ok.injEq, Prod.mk.injEq] at hb
    obtain ⟨h1, -⟩ := hb
    rw [← h1] at hdup
    simp at hdup
  | cons s rest =>
    have hstep : parse (.sunion (s :: rest)) st0 =
        (match parseBranches (s :: rest)
            (getOptsM (.sunion (s :: rest)) st0) with
         | .ok (ts', st') =>
             if (ts'.map discName).Nodup then
               if (getOptsM (.sunion (s :: rest)) st0).unwrapUnions then
                 .ok (.aunwrapped ts', st')
               else if ts'.any isUnionNode then
                 .error (.js "name.indexOf is not a function")
               else .ok (.awrapped ts', st')
             else .error (.avsc "duplicate union name")
         | .error e => .error e) := rfl
    rw [hstep, hb]
    dsimp only
    rw [if_neg hdup]

/-- C5's witness: the union ["int", "int"]. -/
theorem C5_union_duplicate_witness :
    parse (.sunion [.sstr "int", .sstr "int"]) (initOpts false) =
      .error (.avsc "duplicate union name") :=
  C5_union_duplicate_discriminator [.sstr "int", .sstr "int"]
    (initOpts false) [.aprim "int", .aprim "int"] (initOpts false)
    rfl (by decide)

/-- C6: a record field carrying a default that fails validation makes
the record parse fail with the invalid-default SchemaError; the
validation target is `defaultCheckType` — for a union field the FIRST
branch only — so a default valid only for a later branch is rejected. -/
theorem C6_record_default_first_branch (S : Schema) (nm fn q : String)
    (ns rdoc fdoc : Option String) (tS : Schema) (d : JsVal)
    (rest : List FieldSchema) (st0 st1 st2 : Opts) (t : AvroType)
    (hS : S = .sobj (some "record") (some nm) ns rdoc none none none none
      (some (.mk (some fn) (some tS) (some d) fdoc :: rest)))
    (hnm : jsTruthyStr (some nm) = true)
    (hst1 : getOptsM S st0 = st1)
    (hq : getQualifiedNameM (some nm) ns st1.ns = some q)
    (hp : parse tS
      { st1 with registry := jsInsert q (.arecord q rdoc []) st1.registry }
        = .ok (t, st2))
    (hd : checkVal (defaultCheckType t) (coerceDefault t d) = some false) :
    parse S st0 = .error (.avsc "invalid default") := by
  subst hS
  have hpf : parseFields (.mk (some fn) (some tS) (some d) fdoc :: rest)
      { st1 with registry :=
          jsInsert q (.arecord q rdoc []) st1.registry } =
      .error (.avsc "invalid default") := by
    have hstep2 : parseFields
        (.mk (some fn) (some tS) (some d) fdoc :: rest)
        { st1 with registry :=
            jsInsert q (.arecord q rdoc []) st1.registry } =
        (match parse tS
            { st1 with registry :=
                          jsInsert q (.arecord q rdoc []) st1.registry } with
         | .ok (t', stx) =>
             match checkVal (defaultCheckType t') (coerceDefault t' d) with
             | some true =>
                 match parseFields rest stx with
                 | .ok (fts, sty) =>
                     .ok (.mk fn fdoc t' (some (coerceDefault t' d)) ::
                       fts, sty)
                 | .error e => .error e
             | some false => .error (.avsc "invalid default")
             | none => .error (.js "exception validating default")
         | .error e => .error e) := rfl
    rw [hstep2, hp]
    dsimp only
    rw [hd]
  have hstep : parse (Schema.sobj (some "record") (some nm) ns rdoc none
      none none none
      (some (.mk (some fn) (some tS) (some d) fdoc :: rest))) st0 =
      (if ¬ jsTruthyStr (some nm) = true then
        .error (.avsc "missing record name")
       else
         match getQualifiedNameM (some nm) ns
             (getOptsM (Schema.sobj (some "record") (some nm) ns rdoc none
               none none none
               (some (.mk (some fn) (some tS) (some d) fdoc :: rest)))
               st0).ns with
         | some q' =>
             match parseFields
                 (.mk (some fn) (some tS) (some d) fdoc :: rest)
                 { (getOptsM (Schema.sobj (some "record") (some nm) ns
                     rdoc none none none none
                     (some (.mk (some fn) (some tS) (some d) fdoc ::
                       rest))) st0) with
                   registry := jsInsert q' (.arecord q' rdoc [])
                     (getOptsM (Schema.sobj (some "record") (some nm) ns
                       rdoc none none none none
                       (some (.mk (some fn) (some tS) (some d) fdoc ::
                         rest))) st0).registry } with
             | .ok (fts, sty) =>
                 if fts.any (fun f =>
                     f.dflt.isSome ∧ defaultWriterUnsupported f.type) then
                   .error (.js
                     "bytes and fixed defaults are not supported yet")
                 else
                   .ok (.arecord q' rdoc fts,
                     { sty with registry :=
                         match sty.registry.lookup q' with
                         | some (.arecord _ _ []) =>
                             jsInsert q' (.arecord q' rdoc fts)
                               sty.registry
                         | _ => sty.registry })
             | .error e => .error e
         | none => .error (.avsc "missing record name")) := rfl
  rw [hstep]
  rw [if_neg (by simp [hnm])]
  rw [hst1, hq]
  dsimp only
  rw [hpf]

/-- The record schema whose only field is a union ["int","string"] with
default "a" — valid for the second branch, invalid for the first. -/
def C6recS : Schema :=
  .sobj (some "record") (some "R6") none none none none none none
    (some [.mk (some "u") (some (.sunion [.sstr "int", .sstr "string"]))
      (some (.vstr "a")) none])

/-- C6's witness: the default "a" validates against the union but not
against its first branch "int", so the record fails to parse. -/
theorem C6_record_default_witness :
    parse C6recS (initOpts false) = .error (.avsc "invalid default") :=
  C6_record_default_first_branch C6recS "R6" "u" "R6" none none none
    (.sunion [.sstr "int", .sstr "string"]) (.vstr "a") []
    (initOpts false) (initOpts false)
    { initOpts false with
        registry := jsInsert "R6" (.arecord "R6" none []) createRegistry }
    (.awrapped [.aprim "int", .aprim "string"])
    rfl rfl rfl rfl rfl rfl

/-- C7 (amended): registration is silently last-wins — inserting a node
under an existing name overwrites the earlier entry rather than failing
— and resolution of a string reference is deterministic: it returns the
node currently registered under the effective name, leaving the
registry untouched. -/
theorem C7_registry_last_wins (name : String) (node t : AvroType)
    (reg : List (String × AvroType)) (st : Opts)
    (heff : ¬ (jsTruthyStr st.ns = true ∧
      ¬ name.data.contains '.' = true ∧ name ∉ PRIMITIVES))
    (h : st.registry.lookup name = some t) :
    (jsInsert name node reg).lookup name = some node ∧
    parse (.sstr name) st = .ok (t, st) := by
  constructor
  · rw [jsInsert_lookup]
    rw [if_pos rfl]
  · have hstep : parse (.sstr name) st =
        (match st.registry.lookup
            (if jsTruthyStr st.ns ∧ ¬ name.data.contains '.' ∧
              name ∉ PRIMITIVES then st.ns.getD "" ++ "." ++ name
             else name) with
         | some t' => .ok (t', st)
         | none => .error (.js "missing name")) := rfl
    rw [hstep]
    rw [if_neg heff]
    rw [h]

/-- The record schema `B` declaring an enum named `N` and then a fixed
also named `N`. -/
def C7dupS : Schema :=
  .sobj (some "record") (some "B") none none none none none none
    (some
      [.mk (some "e") (some (.sobj (some "enum") (some "N") none none
        (some ["A"]) none none none none)) none none,
       .mk (some "f") (some (.sobj (some "fixed") (some "N") none none
        none (some 2) none none none)) none none])

/-- C7's counterexample to the original claim: the name "N" is
registered TWICE while parsing `B` — first as the enum, then as the
fixed, the second registration silently overwriting the first — so
after the parse the registry resolves "N" to the fixed node even though
the enum node (a distinct node registered under the same name) sits in
the record's first field. -/
theorem C7_counterexample :
    ∃ st, parse C7dupS (initOpts false) =
      .ok (.arecord "B" none
        [.mk "e" none (.aenum "N" none ["A"]) none,
         .mk "f" none (.afixed "N" 2) none], st) ∧
      st.registry.lookup "N" = some (.afixed "N" 2) ∧
      parse (.sstr "N") st = .ok (.afixed "N" 2, st) :=
  ⟨{ registry := jsInsert "B"
        (.arecord "B" none
          [.mk "e" none (.aenum "N" none ["A"]) none,
           .mk "f" none (.afixed "N" 2) none])
        (jsInsert "N" (.afixed "N" 2)
          (jsInsert "N" (.aenum "N" none ["A"])
            (jsInsert "B" (.arecord "B" none []) createRegistry))),
      ns := none, unwrapUnions := false },
    rfl, rfl, rfl⟩

/-- C7's witness: a dotted name resolves to the registered node. -/
theorem C7_registry_witness :
    (jsInsert "a.b" (AvroType.afixed "a.b" 1)
      [("a.b", AvroType.aenum "a.b" none ["X"])]).lookup "a.b" =
      some (.afixed "a.b" 1) ∧
    parse (.sstr "a.b")
      { registry := [("a.b", AvroType.aenum "a.b" none ["X"])],
        ns := some "o", unwrapUnions := false } =
      .ok (.aenum "a.b" none ["X"],
        { registry := [("a.b", AvroType.aenum "a.b" none ["X"])],
          ns := some "o", unwrapUnions := false }) :=
  C7_registry_last_wins "a.b" (.afixed "a.b" 1) (.aenum "a.b" none ["X"])
    [("a.b", AvroType.aenum "a.b" none ["X"])]
    { registry := [("a.b", AvroType.aenum "a.b" none ["X"])],
      ns := some "o", unwrapUnions := false }
    (by decide) rfl

/-- The unwrapped-union writer's scan against the first accepting
branch, at any starting index (no branch checker may throw). -/
theorem writeScan_firstMatch (ts : List AvroType) (v : JsVal)
    (hnoexc : ∀ u ∈ ts, checkVal u v ≠ none) :
    ∀ base, writeScan ts v base =
      (match firstMatch ts v with
       | some i =>
           match writeBranch ts i v with
           | some bs => some (writeLongB ((base + i : Nat)) ++ bs)
           | none => none
       | none => none) := by
  induction ts with
  | nil => intro base; rfl
  | cons t rest ih =>
    intro base
    rcases hx : checkVal t v with _ | b
    · exact absurd hx (hnoexc t (List.mem_cons_self t rest))
    · cases b with
      | true =>
        simp only [writeScan, hx]
        have hfm : firstMatch (t :: rest) v = some 0 := by
          simp [firstMatch, List.findIdx?_cons, hx]
        rw [hfm]
        dsimp only [writeBranch]
        rw [Nat.add_zero]
      | false =>
        simp only [writeScan, hx]
        rw [ih (fun u hu => hnoexc u (List.mem_cons_of_mem t hu))
          (base + 1)]
        have hfm : firstMatch (t :: rest) v =
            (firstMatch rest v).map (fun i => i + 1) := by
          simp only [firstMatch]
          rw [List.findIdx?_cons]
          simp only [hx, decide_eq_true_eq]
          rw [if_neg (by simp)]
          rw [List.findIdx?_start_succ]
        rw [hfm]
        rcases firstMatch rest v with _ | i
        · rfl
        · dsimp only [Option.map, writeBranch]
          have harith : base + 1 + i = base + (i + 1) := by omega
          rw [harith]

/-- C8: the unwrapped-union writer is the linear first-match scan: it
emits the index of the first branch whose checker accepts the value
followed by that branch's bytes, earlier branches all having rejected
the value, and throws when no branch accepts (provided no branch
checker itself throws). -/
theorem C8_unwrapped_write_first_match (ts : List AvroType) (v : JsVal)
    (hnoexc : ∀ u ∈ ts, checkVal u v ≠ none) :
    (writeVal (.aunwrapped ts) v =
      (match firstMatch ts v with
       | some i =>
           match writeBranch ts i v with
           | some bs => some (writeLongB i ++ bs)
           | none => none
       | none => none)) ∧
    ∀ i, firstMatch ts v = some i →
      ∃ t, ts.get? i = some t ∧ checkVal t v = some true ∧
        ∀ j u, j < i → ts.get? j = some u → checkVal u v = some false := by
  constructor
  · have h := writeScan_firstMatch ts v hnoexc 0
    simp only [writeVal]
    rw [h]
    rcases firstMatch ts v with _ | i
    · rfl
    · dsimp only
      rw [Nat.zero_add]
  · intro i hfm
    simp only [firstMatch] at hfm
    obtain ⟨hlt, hp, hbefore⟩ := List.findIdx?_eq_some_iff_getElem.mp hfm
    refine ⟨ts[i], by simp [List.get?_eq_getElem?, hlt],
      by simpa using hp, ?_⟩
    intro j u hj hgu
    have hglt : j < ts.length := lt_trans hj hlt
    have hj2 := hbefore j hj
    simp only [decide_eq_true_eq] at hj2
    have hu : u = ts[j] := by
      rw [List.get?_eq_getElem?] at hgu
      simp only [List.getElem?_eq_getElem hglt] at hgu
      exact (Option.some.inj hgu).symm
    subst hu
    rcases hcx : checkVal ts[j] v with _ | b
    · exact absurd hcx (hnoexc ts[j] (List.getElem_mem hglt))
    · cases b with
      | true => exact absurd hcx (by simpa using hj2)
      | false => rfl

/-- C8's witness: the value "a" under the unwrapped union
["int","string"]: branch 0 rejects, branch 1 accepts, and the writer
emits index 1 followed by the string encoding. -/
theorem C8_unwrapped_write_witness :
    writeVal (.aunwrapped [.aprim "int", .aprim "string"]) (.vstr "a") =
      some [2, 2, 97] := by
  have h := C8_unwrapped_write_first_match
    [.aprim "int", .aprim "string"] (.vstr "a") (by decide)
  rw [h.1]
  rfl

/-- C10: a name already containing a dot is its own fully qualified
name: both the schema-level namespace attribute and the inherited one
are ignored by `getQualifiedName`, and (enum shown) the node is built
with and registered under the verbatim name. -/
theorem C10_dotted_name_verbatim (n : String)
    (hdot : n.data.contains '.' = true) (sns ns : Option String) :
    getQualifiedNameM (some n) sns ns = some n ∧
    (∀ doc syms st0, syms.isEmpty = false →
      ∃ st', parse (.sobj (some "enum") (some n) sns doc (some syms) none
          none none none) st0 =
        .ok (.aenum n doc syms, st') ∧
        st'.registry.lookup n = some (.aenum n doc syms)) := by
  have hne : n ≠ "" := by
    intro h
    subst h
    simp [List.contains] at hdot
  have h1 : ∀ m, getQualifiedNameM (some n) sns m = some n := by
    intro m
    simp only [getQualifiedNameM]
    rw [if_neg (fun hcond => absurd hdot hcond.2.1)]
  refine ⟨h1 ns, ?_⟩
  intro doc syms st0 hsne
  refine ⟨{ getOptsM (.sobj (some "enum") (some n) sns doc (some syms)
      none none none none) st0 with
      registry := jsInsert n (.aenum n doc syms)
        (getOptsM (.sobj (some "enum") (some n) sns doc (some syms)
          none none none none) st0).registry }, ?_, ?_⟩
  · have hstep : parse (.sobj (some "enum") (some n) sns doc (some syms)
        none none none none) st0 =
        (if ¬ jsTruthyStr (some n) = true then
          .error (.avsc "missing enum name")
         else if syms.isEmpty = true then
           .error (.avsc "invalid enum symbols")
         else
           match getQualifiedNameM (some n) sns
               (getOptsM (.sobj (some "enum") (some n) sns doc
                 (some syms) none none none none) st0).ns with
           | some q => .ok (.aenum q doc syms,
               { getOptsM (.sobj (some "enum") (some n) sns doc
                   (some syms) none none none none) st0 with
                   registry := jsInsert q (.aenum q doc syms)
                     (getOptsM (.sobj (some "enum") (some n) sns doc
                       (some syms) none none none none) st0).registry })
           | none => .error (.avsc "missing enum name")) := rfl
    rw [hstep]
    rw [if_neg (by simp [jsTruthyStr, hne])]
    rw [if_neg (by simp [hsne])]
    rw [h1]
  · rw [jsInsert_lookup]
    rw [if_pos rfl]

/-- C10's witness: the dotted name "a.b" under both a schema namespace
and an inherited one. -/
theorem C10_dotted_name_witness :
    getQualifiedNameM (some "a.b") (some "ns") (some "o") = some "a.b" ∧
    (∃ st', parse (.sobj (some "enum") (some "a.b") (some "ns") none
        (some ["X"]) none none none none) (initOpts false) =
      .ok (.aenum "a.b" none ["X"], st') ∧
      st'.registry.lookup "a.b" = some (.aenum "a.b" none ["X"])) := by
  have h := C10_dotted_name_verbatim "a.b" (by decide) (some "ns")
    (some "o")
  exact ⟨h.1, h.2 none ["X"] (initOpts false) rfl⟩

end Avsc
